import Mathlib

/-!
Shallow embedding of the `promise` Go package (promise.go): a Promise state
machine with resolve/reject settlement, Then/Catch handler chaining,
flattening of nested promises returned by fulfillment handlers,
panic-to-rejection conversion, and a WaitGroup-based blocking join.

The Go code serializes every operation on one promise under its mutex, so
each operation is modelled as a sequenced state transformer on a `Promise`
record. Handler invocations are recorded in an event trace so that claims
about which handler runs, how often, in which order and with which argument
can be stated and proved.
-/

namespace PromiseSpec

/-- Promise states: the `pending`, `fulfilled`, `rejected` constants of
promise.go. -/
inductive PState where
  | pending
  | fulfilled
  | rejected
deriving DecidableEq, Repr

/-- Go `error` values: `nil`, or an error carrying a message
(`errors.New(msg)` yields `some msg`). -/
abbrev Err := Option String

/-- Dynamically typed values (Go `interface{}`). A promise object stored as
a value (a `*Promise`) is represented by the settled outcome it eventually
exposes through its own `Then`/`Catch`/`Await` API, which is exactly what
the flattening code in `resolve` observes after awaiting it: `vpromF v` is
a promise that eventually fulfills delivering `v` to its first fulfillment
handler, `vpromR e` one that eventually rejects with error `e`. -/
inductive Val where
  | vnil
  | vint (n : Int)
  | vstr (s : String)
  | vpromF (v : Val)
  | vpromR (e : Err)
deriving DecidableEq, Repr

/-- Handler-invocation events emitted during settlement: `callThen i a`
records that fulfillment handler number `i` (0-based registration order) was
invoked with argument `a`; `callCatch i e` likewise for rejection handler
`i` invoked with error `e`. -/
inductive Event where
  | callThen (i : Nat) (a : Val)
  | callCatch (i : Nat) (e : Err)
deriving DecidableEq, Repr

/-- The `Promise` struct of promise.go. `thens` and `catchs` are the `then`
and `catch` handler slices, `result` and `error` the value slots, `wg` the
`sync.WaitGroup` counter (the completion signal). The `executor` field and
the mutex have no counterpart here: the mutex serializes the operations we
model as sequenced transformers, and the executor is the environment that
eventually calls `resolve`/`reject` or panics. -/
structure Promise where
  state : PState
  thens : List (Val → Val)
  catchs : List (Err → Err)
  result : Val
  error : Err
  wg : Int

/-- The promise allocated by `New` before its executor settles it:
pending, empty handler slices, nil result and error, WaitGroup at 0. -/
def newPromise : Promise :=
  { state := PState.pending
    thens := []
    catchs := []
    result := Val.vnil
    error := none
    wg := 0 }

/-- The rejection-handler loop shared by `reject` (lines 142-145) and the
short-circuit continuation inside `resolve` (lines 108-111): each handler
is invoked with the current error, its return value becomes the new error,
and one completion unit is released per invocation. `i` is the index of the
first handler, used only for the trace. Returns the final folded error and
the invocation trace. -/
def catchChain : List (Err → Err) → Nat → Err → Err × List Event
  | [], _, e => (e, [])
  | f :: fs, i, e =>
    let out := catchChain fs (i + 1) (f e)
    (out.1, Event.callCatch i e :: out.2)

/-- The fulfillment-handler loop of `resolve` (promise.go lines 90-125),
processing the remaining handlers with `i` playing the role of
`doneCounter` (the number of completed iterations). Each handler is invoked
with the current result and its return value stored back. If that value is
a promise object, the attached continuations take over: a nested
fulfillment overwrites the outer result with the nested value, a nested
rejection releases the completion units of every unprocessed fulfillment
handler (`len(promise.then) - doneCounter` of them), runs the outer
rejection handlers via `catchChain`, and short-circuits out of the loop.
After the loop, one unit per registered rejection handler is released
without invoking any of them. Returns the updated promise, the
short-circuit flag (`isRejected`), and the invocation trace. -/
def resolveLoop : Promise → List (Val → Val) → Nat → Promise × Bool × List Event
  | p, [], _ => ({ p with wg := p.wg - p.catchs.length }, false, [])
  | p, f :: fs, i =>
    let arg := p.result
    match f arg with
    | Val.vpromF v =>
      let out := resolveLoop { p with result := v, wg := p.wg - 1 } fs (i + 1)
      (out.1, out.2.1, Event.callThen i arg :: out.2.2)
    | Val.vpromR e =>
      let cc := catchChain p.catchs 0 e
      ({ p with result := Val.vpromR e
                wg := p.wg - ((p.thens.length - i : Nat) + p.catchs.length : Int) },
       true, Event.callThen i arg :: cc.2)
    | r =>
      let out := resolveLoop { p with result := r, wg := p.wg - 1 } fs (i + 1)
      (out.1, out.2.1, Event.callThen i arg :: out.2.2)

/-- `resolve` (promise.go lines 80-126): a no-op unless pending; otherwise
marks the promise fulfilled, stores the resolution, and runs the
fulfillment-handler loop. -/
def resolve (p : Promise) (resolution : Val) : Promise × Bool × List Event :=
  if p.state ≠ PState.pending then (p, false, [])
  else resolveLoop { p with state := PState.fulfilled, result := resolution } p.thens 0

/-- `reject` (promise.go lines 128-148): a no-op unless pending; otherwise
releases one completion unit per registered fulfillment handler without
invoking it, stores the error, folds the rejection handlers over it
(releasing one unit per invocation), and marks the promise rejected. -/
def reject (p : Promise) (e : Err) : Promise × List Event :=
  if p.state ≠ PState.pending then (p, [])
  else
    let cc := catchChain p.catchs 0 e
    ({ p with error := cc.1
              wg := p.wg - p.thens.length - p.catchs.length
              state := PState.rejected },
     cc.2)

/-- `Then` (promise.go lines 158-170). The Go method mutates the receiver
and returns the same `*Promise`; here the returned record is the updated
state of that same promise (no fresh downstream promise is created). -/
def Then (p : Promise) (fulfillment : Val → Val) : Promise :=
  if p.state = PState.pending then
    { p with wg := p.wg + 1, thens := p.thens ++ [fulfillment] }
  else if p.state = PState.fulfilled then
    { p with result := fulfillment p.result }
  else p

/-- `Catch` (promise.go lines 173-185), symmetric to `Then`. -/
def Catch (p : Promise) (rejection : Err → Err) : Promise :=
  if p.state = PState.pending then
    { p with wg := p.wg + 1, catchs := p.catchs ++ [rejection] }
  else if p.state = PState.rejected then
    { p with error := rejection p.error }
  else p

/-- `handlePanic` (promise.go lines 150-155), run by `New`'s goroutine when
the executor returns or panics. The argument is the value returned by
`recover()`: `none` when the executor did not panic (nothing happens), and
`some v` when it panicked with payload `v`. The code performs the unguarded
type assertion `r.(string)` before calling `reject`; when the payload is
not a string that assertion itself panics, the recovery goroutine faults
and no promise state is ever produced, which is modelled by the `none`
outcome of the `Option` result. -/
def handlePanic (p : Promise) (r : Option Val) : Option (Promise × List Event) :=
  match r with
  | none => some (p, [])
  | some (Val.vstr s) => some (reject p (some s))
  | some _ => none

/-- `Await` (promise.go lines 188-190) calls `wg.Wait()`, which returns
exactly when the WaitGroup counter is zero; this predicate is that return
condition. `Await` blocks (with no timeout) as long as it is false. -/
def awaitUnblocked (p : Promise) : Bool :=
  p.wg == 0

/-- A handler-registration operation: the only operations other than
settlement that touch a promise. Used to describe what can happen to a
promise whose executor never calls `resolve` or `reject` and never
panics. -/
inductive RegOp where
  | rthen (f : Val → Val)
  | rcatch (f : Err → Err)

/-- Apply one registration operation. -/
def applyReg (p : Promise) : RegOp → Promise
  | RegOp.rthen f => Then p f
  | RegOp.rcatch f => Catch p f

/-- Apply a sequence of registration operations in order. -/
def runRegs (p : Promise) (ops : List RegOp) : Promise :=
  ops.foldl applyReg p

/-- Left fold of a handler chain over an initial error: the mathematical
description of the sequential recovery pipeline, to be related to
`catchChain`. -/
def chainFold (fs : List (Err → Err)) (e : Err) : Err :=
  fs.foldl (fun a f => f a) e

/-- The identity fulfillment handler (`func(data interface{}) interface{} {
return data }`), used in concrete instantiations. -/
def idVal : Val → Val := fun v => v

/-- The identity rejection handler, used in concrete instantiations. -/
def idErr : Err → Err := fun e => e

/-- The panic payload of the `TestPromise_Panic` scenario. -/
def msgBoom : String := "boom"

/-- A rejection handler that replaces any error, used in concrete
instantiations (like the recovery handlers of `TestPromise_Catch`). -/
def toBoom : Err → Err := fun _ => some msgBoom

/-- A concrete promise with one fulfillment and one rejection handler
registered while pending, as in the `TestPromise_Then` scenario. -/
def pReg : Promise := Catch (Then newPromise idVal) idErr

/-! ### Basic lemmas about the handler chains -/

theorem chainFold_nil (e : Err) : chainFold [] e = e := rfl

theorem chainFold_cons (f : Err → Err) (fs : List (Err → Err)) (e : Err) :
    chainFold (f :: fs) e = chainFold fs (f e) := rfl

theorem catchChain_fst (fs : List (Err → Err)) (i : Nat) (e : Err) :
    (catchChain fs i e).1 = chainFold fs e := by
  induction fs generalizing i e with
  | nil => rfl
  | cons f fs ih => simpa [catchChain, chainFold_cons] using ih (i + 1) (f e)

theorem catchChain_length (fs : List (Err → Err)) (i : Nat) (e : Err) :
    (catchChain fs i e).2.length = fs.length := by
  induction fs generalizing i e with
  | nil => rfl
  | cons f fs ih => simp [catchChain, ih]

theorem catchChain_get (fs : List (Err → Err)) (i : Nat) (e : Err)
    (j : Nat) (hj : j < fs.length) :
    (catchChain fs i e).2.get? j =
      some (Event.callCatch (i + j) (chainFold (fs.take j) e)) := by
  induction fs generalizing i e j with
  | nil => simp at hj
  | cons f fs ih =>
    cases j with
    | zero => simp [catchChain, chainFold]
    | succ j =>
      have hj' : j < fs.length := by simpa using hj
      have hrec := ih (i + 1) (f e) j hj'
      have hidx : i + 1 + j = i + (j + 1) := by omega
      simpa [catchChain, List.take_succ_cons, chainFold_cons, hidx] using hrec

theorem catchChain_events (fs : List (Err → Err)) (i : Nat) (e : Err) :
    ∀ ev ∈ (catchChain fs i e).2, ∃ j x, ev = Event.callCatch j x := by
  induction fs generalizing i e with
  | nil => simp [catchChain]
  | cons f fs ih =>
    intro ev hev
    rcases (by simpa [catchChain] using hev : ev = Event.callCatch i e ∨
        ev ∈ (catchChain fs (i + 1) (f e)).2) with h | h
    · exact ⟨i, e, h⟩
    · exact ih (i + 1) (f e) ev h

/-! ### Lemmas about the fulfillment loop -/

theorem resolveLoop_preserved (fs : List (Val → Val)) (p : Promise) (i : Nat) :
    (resolveLoop p fs i).1.state = p.state ∧
    (resolveLoop p fs i).1.thens = p.thens ∧
    (resolveLoop p fs i).1.catchs = p.catchs := by
  induction fs generalizing p i with
  | nil => simp [resolveLoop]
  | cons f fs ih =>
    rcases h : f p.result with _ | n | s | v | e <;>
      simp [resolveLoop, h, ih]

theorem resolveLoop_wg (fs : List (Val → Val)) : ∀ (p : Promise) (i : Nat),
    p.thens.length = i + fs.length →
    (resolveLoop p fs i).1.wg = p.wg - (fs.length + p.catchs.length) := by
  induction fs with
  | nil => intro p i _; simp [resolveLoop]
  | cons f fs ih =>
    intro p i hinv
    simp only [List.length_cons] at hinv
    rcases h : f p.result with _ | n | s | v | e
    case vpromR =>
      have hlen : p.thens.length - i = fs.length + 1 := by omega
      simp only [resolveLoop, h]
      simp [hlen]
    all_goals
      simp only [resolveLoop, h]
      rw [ih _ (i + 1) (by simp; omega)]
      simp only [List.length_cons]
      push_cast
      ring

theorem resolveLoop_noSC (fs : List (Val → Val)) : ∀ (p : Promise) (i : Nat),
    (resolveLoop p fs i).2.1 = false →
    (resolveLoop p fs i).2.2.length = fs.length ∧
    (∀ j, j < fs.length →
      ∃ a, (resolveLoop p fs i).2.2.get? j = some (Event.callThen (i + j) a)) ∧
    (∀ ev ∈ (resolveLoop p fs i).2.2, ∃ j a, ev = Event.callThen j a) := by
  induction fs with
  | nil => intro p i _; simp [resolveLoop]
  | cons f fs ih =>
    intro p i hsc
    rcases h : f p.result with _ | n | s | v | e
    case vpromR =>
      exfalso
      simp [resolveLoop, h] at hsc
    all_goals
      simp only [resolveLoop, h] at hsc ⊢
      obtain ⟨h1, h2, h3⟩ := ih _ (i + 1) hsc
      refine ⟨by simp [h1], ?_, ?_⟩
      · intro j hj
        cases j with
        | zero => exact ⟨p.result, by simp⟩
        | succ j =>
          obtain ⟨a, ha⟩ := h2 j (by simp at hj; omega)
          have hidx : i + (j + 1) = i + 1 + j := by omega
          refine ⟨a, ?_⟩
          rw [hidx]
          simpa using ha
      · intro ev hev
        rcases List.mem_cons.mp (by simpa using hev) with h' | h'
        · exact ⟨i, p.result, h'⟩
        · exact h3 ev h'

theorem resolveLoop_trace_cons (p : Promise) (f : Val → Val)
    (fs : List (Val → Val)) (i : Nat) :
    ∃ t, (resolveLoop p (f :: fs) i).2.2 = Event.callThen i p.result :: t := by
  rcases h : f p.result with _ | n | s | v | e <;> simp [resolveLoop, h]

/-! ### Settlement and registration lemmas -/

theorem resolve_settled (p : Promise) (v : Val) (hp : p.state ≠ PState.pending) :
    resolve p v = (p, false, []) := by
  simp [resolve, hp]

theorem reject_settled (p : Promise) (e : Err) (hp : p.state ≠ PState.pending) :
    reject p e = (p, []) := by
  simp [reject, hp]

theorem resolve_pending (p : Promise) (v : Val) (hp : p.state = PState.pending) :
    resolve p v =
      resolveLoop { p with state := PState.fulfilled, result := v } p.thens 0 := by
  simp [resolve, hp]

theorem runRegs_pending (ops : List RegOp) : ∀ (p : Promise),
    p.state = PState.pending →
    (runRegs p ops).state = PState.pending ∧
    (runRegs p ops).wg = p.wg + ops.length := by
  induction ops with
  | nil => intro p hp; simp [runRegs, hp]
  | cons op ops ih =>
    intro p hp
    have hstep : (applyReg p op).state = PState.pending ∧
        (applyReg p op).wg = p.wg + 1 := by
      cases op <;> simp [applyReg, Then, Catch, hp]
    have hrest := ih (applyReg p op) hstep.1
    have hrw : runRegs p (op :: ops) = runRegs (applyReg p op) ops := rfl
    rw [hrw]
    refine ⟨hrest.1, ?_⟩
    rw [hrest.2, hstep.2]
    simp only [List.length_cons]
    push_cast
    ring

/-! ### The claims -/

/-- C1: Settlement is monotonic and idempotent: a pending promise moves to
`fulfilled` via `resolve` and to `rejected` via `reject`, and any
`resolve` or `reject` call made after the promise has settled leaves the
whole promise record — state, result and error included — exactly as the
first settling call left it. -/
theorem C1_settlement_monotonic_idempotent (p : Promise) (v v' : Val) (e e' : Err)
    (hp : p.state = PState.pending) :
    (resolve p v).1.state = PState.fulfilled ∧
    (reject p e).1.state = PState.rejected ∧
    (resolve (resolve p v).1 v').1 = (resolve p v).1 ∧
    (reject (resolve p v).1 e').1 = (resolve p v).1 ∧
    (resolve (reject p e).1 v').1 = (reject p e).1 ∧
    (reject (reject p e).1 e').1 = (reject p e).1 := by
  have hres : (resolve p v).1.state = PState.fulfilled := by
    rw [resolve_pending p v hp]
    simpa using (resolveLoop_preserved p.thens _ 0).1
  have hrej : (reject p e).1.state = PState.rejected := by
    simp [reject, hp]
  have hnp1 : (resolve p v).1.state ≠ PState.pending := by simp [hres]
  have hnp2 : (reject p e).1.state ≠ PState.pending := by simp [hrej]
  exact ⟨hres, hrej,
    by rw [resolve_settled _ v' hnp1],
    by rw [reject_settled _ e' hnp1],
    by rw [resolve_settled _ v' hnp2],
    by rw [reject_settled _ e' hnp2]⟩

/-- Witness for C1 at a concrete pending promise. -/
theorem C1_witness :
    (resolve newPromise (Val.vint 1)).1.state = PState.fulfilled ∧
    (reject newPromise (some msgBoom)).1.state = PState.rejected ∧
    (resolve (resolve newPromise (Val.vint 1)).1 (Val.vint 2)).1 =
      (resolve newPromise (Val.vint 1)).1 ∧
    (reject (resolve newPromise (Val.vint 1)).1 (some msgBoom)).1 =
      (resolve newPromise (Val.vint 1)).1 ∧
    (resolve (reject newPromise (some msgBoom)).1 (Val.vint 2)).1 =
      (reject newPromise (some msgBoom)).1 ∧
    (reject (reject newPromise (some msgBoom)).1 (some msgBoom)).1 =
      (reject newPromise (some msgBoom)).1 :=
  C1_settlement_monotonic_idempotent newPromise (Val.vint 1) (Val.vint 2)
    (some msgBoom) (some msgBoom) rfl

/-- C2: `Then`/`Catch` dispatch on the current state, mutating and
returning this same promise: while pending they append the handler and add
one completion unit; `Then` on a fulfilled promise invokes the handler on
the current result and overwrites the result with its return value;
`Catch` on a rejected promise invokes the handler on the current error and
overwrites the error; `Then` on a rejected promise and `Catch` on a
fulfilled promise leave the promise completely unchanged and never invoke
the handler. -/
theorem C2_then_catch_dispatch (p : Promise) (f : Val → Val) (g : Err → Err) :
    (p.state = PState.pending →
      Then p f = { p with wg := p.wg + 1, thens := p.thens ++ [f] } ∧
      Catch p g = { p with wg := p.wg + 1, catchs := p.catchs ++ [g] }) ∧
    (p.state = PState.fulfilled →
      Then p f = { p with result := f p.result } ∧ Catch p g = p) ∧
    (p.state = PState.rejected →
      Then p f = p ∧ Catch p g = { p with error := g p.error }) := by
  refine ⟨fun hp => ?_, fun hp => ?_, fun hp => ?_⟩ <;>
    constructor <;> simp [Then, Catch, hp]

/-- Witness for C2 at concrete promises in each of the three states. -/
theorem C2_witness :
    (Then newPromise idVal =
      { newPromise with wg := newPromise.wg + 1, thens := newPromise.thens ++ [idVal] } ∧
     Catch newPromise idErr =
      { newPromise with wg := newPromise.wg + 1, catchs := newPromise.catchs ++ [idErr] }) ∧
    (Then (resolve newPromise (Val.vint 3)).1 idVal =
      { (resolve newPromise (Val.vint 3)).1 with
          result := idVal (resolve newPromise (Val.vint 3)).1.result } ∧
     Catch (resolve newPromise (Val.vint 3)).1 idErr = (resolve newPromise (Val.vint 3)).1) ∧
    (Then (reject newPromise (some msgBoom)).1 idVal = (reject newPromise (some msgBoom)).1 ∧
     Catch (reject newPromise (some msgBoom)).1 idErr =
      { (reject newPromise (some msgBoom)).1 with
          error := idErr (reject newPromise (some msgBoom)).1.error }) :=
  ⟨(C2_then_catch_dispatch newPromise idVal idErr).1 rfl,
   (C2_then_catch_dispatch (resolve newPromise (Val.vint 3)).1 idVal idErr).2.1 rfl,
   (C2_then_catch_dispatch (reject newPromise (some msgBoom)).1 idVal idErr).2.2 rfl⟩

/-- C3: rejecting a pending promise with `k` registered rejection handlers
invokes each of the `k` handlers exactly once, in registration order,
threading the error as an accumulator (handler `i` receives the left fold
of the first `i` handlers over the rejection error), stores the full left
fold as the final error, and invokes no fulfillment handler. -/
theorem C3_reject_runs_catch_chain (p : Promise) (e : Err)
    (hp : p.state = PState.pending) :
    (reject p e).1.error = chainFold p.catchs e ∧
    (reject p e).2.length = p.catchs.length ∧
    (∀ i, i < p.catchs.length →
      (reject p e).2.get? i =
        some (Event.callCatch i (chainFold (p.catchs.take i) e))) ∧
    (∀ ev ∈ (reject p e).2, ∀ j a, ev ≠ Event.callThen j a) := by
  refine ⟨?_, ?_, ?_, ?_⟩
  · simp [reject, hp, catchChain_fst]
  · simp [reject, hp, catchChain_length]
  · intro i hi
    simpa [reject, hp] using catchChain_get p.catchs 0 e i hi
  · intro ev hev j a
    have hev' : ev ∈ (catchChain p.catchs 0 e).2 := by
      simpa [reject, hp] using hev
    obtain ⟨j', x, rfl⟩ := catchChain_events p.catchs 0 e ev hev'
    simp

/-- Witness for C3 at a pending promise with two rejection handlers. -/
theorem C3_witness :
    (reject (Catch (Catch newPromise toBoom) idErr) none).1.error =
      chainFold (Catch (Catch newPromise toBoom) idErr).catchs none ∧
    (reject (Catch (Catch newPromise toBoom) idErr) none).2.get? 1 =
      some (Event.callCatch 1
        (chainFold ((Catch (Catch newPromise toBoom) idErr).catchs.take 1) none)) :=
  ⟨(C3_reject_runs_catch_chain (Catch (Catch newPromise toBoom) idErr) none rfl).1,
   (C3_reject_runs_catch_chain (Catch (Catch newPromise toBoom) idErr) none rfl).2.2.1
     1 (by decide)⟩

/-- C4: completion accounting. For a pending promise owing one completion
unit per registered handler (the invariant `Then`/`Catch` maintain), every
settlement path drives the completion signal exactly to zero: rejection,
fulfillment, and fulfillment short-circuited by a nested rejection. On the
fulfilled path without short-circuit, every fulfillment handler is invoked
exactly once in order and no rejection handler is ever invoked (all their
units are released as bypasses). -/
theorem C4_completion_accounting (p : Promise) (v : Val) (e : Err)
    (hp : p.state = PState.pending)
    (hwg : p.wg = p.thens.length + p.catchs.length) :
    (reject p e).1.wg = 0 ∧
    (resolve p v).1.wg = 0 ∧
    ((resolve p v).2.1 = false →
      (resolve p v).2.2.length = p.thens.length ∧
      (∀ j, j < p.thens.length →
        ∃ a, (resolve p v).2.2.get? j = some (Event.callThen j a)) ∧
      (∀ ev ∈ (resolve p v).2.2, ∀ i x, ev ≠ Event.callCatch i x)) := by
  refine ⟨?_, ?_, ?_⟩
  · simp [reject, hp]
    omega
  · rw [resolve_pending p v hp]
    rw [resolveLoop_wg p.thens _ 0 (by simp)]
    simp
    omega
  · intro hsc
    rw [resolve_pending p v hp] at hsc ⊢
    obtain ⟨h1, h2, h3⟩ := resolveLoop_noSC p.thens _ 0 hsc
    refine ⟨by simpa using h1, ?_, ?_⟩
    · intro j hj
      simpa using h2 j (by simpa using hj)
    · intro ev hev i x
      obtain ⟨j', a', rfl⟩ := h3 ev hev
      simp

/-- Witness for C4 at a pending promise with one fulfillment and one
rejection handler. -/
theorem C4_witness :
    (reject pReg none).1.wg = 0 ∧
    (resolve pReg (Val.vint 7)).1.wg = 0 ∧
    (resolve pReg (Val.vint 7)).2.2.length = pReg.thens.length :=
  ⟨(C4_completion_accounting pReg (Val.vint 7) none rfl (by decide)).1,
   (C4_completion_accounting pReg (Val.vint 7) none rfl (by decide)).2.1,
   ((C4_completion_accounting pReg (Val.vint 7) none rfl (by decide)).2.2
     (by decide)).1⟩

/-- The second fulfillment handler of a two-handler chain whose first
handler returned a promise that fulfills with `v` is invoked with `v`
itself, not with the promise object. -/
theorem resolveLoop_flatten_second (p : Promise) (f g : Val → Val) (i : Nat)
    (v : Val) (hf : f p.result = Val.vpromF v) :
    (resolveLoop p [f, g] i).2.2.get? 1 = some (Event.callThen (i + 1) v) := by
  simp only [resolveLoop, hf]
  rcases hg : g v with _ | n | s | v2 | e2 <;> simp [hg]

/-- C5: flattening on the fulfillment path. A fulfillment handler that
returns a promise does not leave that promise object as the result:
the outer result is overwritten with the nested promise's eventual
fulfillment value. Concretely, after `resolve (vint 1)` on a promise whose
pending-registered chain is a `Then` returning a promise that fulfills
with `v` followed by a further `Then g`, the second handler is invoked
with `v` itself (event `callThen 1 v`), and with the single-handler chain
the final stored result is `v`, not the promise object. -/
theorem C5_flattening_unwraps_nested_value (v : Val) (g : Val → Val) :
    (resolve (Then (Then newPromise (fun _ => Val.vpromF v)) g)
        (Val.vint 1)).2.2.get? 1 = some (Event.callThen 1 v) ∧
    (resolve (Then newPromise (fun _ => Val.vpromF v)) (Val.vint 1)).1.result = v := by
  constructor
  · have hp : (Then (Then newPromise (fun _ => Val.vpromF v)) g).state =
        PState.pending := by
      simp [Then, newPromise]
    have hth : (Then (Then newPromise (fun _ => Val.vpromF v)) g).thens =
        [fun _ => Val.vpromF v, g] := by
      simp [Then, newPromise]
    rw [resolve_pending _ _ hp, hth]
    simpa using resolveLoop_flatten_second _ (fun _ => Val.vpromF v) g 0 v rfl
  · have hp : (Then newPromise (fun _ => Val.vpromF v)).state = PState.pending := by
      simp [Then, newPromise]
    rw [resolve_pending _ _ hp]
    simp [Then, newPromise, resolveLoop]

/-- C6: flattening with a nested rejection short-circuits the fulfillment
chain. With a pending-registered chain `Then` (returning a promise that
rejects with `E`), a further `Then g`, and a `Catch c`, running `resolve`
produces exactly the trace `[callThen 0 (vint 1), callCatch 0 E]`: the
first handler runs, the further `Then` handler `g` is never invoked, the
`Catch` handler is invoked receiving exactly `E`, and `resolve` returns
with the outer state still `fulfilled`, not `rejected`. -/
theorem C6_nested_rejection_short_circuits (E : Err) (g : Val → Val) (c : Err → Err) :
    (resolve (Catch (Then (Then newPromise (fun _ => Val.vpromR E)) g) c)
        (Val.vint 1)).2.2 =
      [Event.callThen 0 (Val.vint 1), Event.callCatch 0 E] ∧
    (resolve (Catch (Then (Then newPromise (fun _ => Val.vpromR E)) g) c)
        (Val.vint 1)).1.state = PState.fulfilled := by
  constructor <;> simp [resolve, Then, Catch, newPromise, resolveLoop, catchChain]

/-- C7: panic-to-rejection conversion. When the executor panics with a
string payload `s`, the deferred recovery handler turns this into exactly
the call `reject` with error text `s`: rejecting a pending promise this
way marks it rejected, runs the registered rejection handlers in order
with the accumulated error starting from `some s`, and stores the folded
error — precisely what an explicit `reject` call would do. -/
theorem C7_panic_string_rejects (p : Promise) (s : String)
    (hp : p.state = PState.pending) :
    handlePanic p (some (Val.vstr s)) = some (reject p (some s)) ∧
    (reject p (some s)).1.state = PState.rejected ∧
    (reject p (some s)).1.error = chainFold p.catchs (some s) ∧
    (∀ i, i < p.catchs.length →
      (reject p (some s)).2.get? i =
        some (Event.callCatch i (chainFold (p.catchs.take i) (some s)))) := by
  refine ⟨rfl, by simp [reject, hp], by simp [reject, hp, catchChain_fst], ?_⟩
  intro i hi
  simpa [reject, hp] using catchChain_get p.catchs 0 (some s) i hi

/-- Witness for C7: a pending promise with one rejection handler, panic
payload `boom`. -/
theorem C7_witness :
    handlePanic (Catch newPromise idErr) (some (Val.vstr msgBoom)) =
      some (reject (Catch newPromise idErr) (some msgBoom)) ∧
    (reject (Catch newPromise idErr) (some msgBoom)).1.state = PState.rejected ∧
    (reject (Catch newPromise idErr) (some msgBoom)).2.get? 0 =
      some (Event.callCatch 0
        (chainFold ((Catch newPromise idErr).catchs.take 0) (some msgBoom))) :=
  ⟨(C7_panic_string_rejects (Catch newPromise idErr) msgBoom rfl).1,
   (C7_panic_string_rejects (Catch newPromise idErr) msgBoom rfl).2.1,
   (C7_panic_string_rejects (Catch newPromise idErr) msgBoom rfl).2.2.2
     0 (by decide)⟩

/-- C8: the panic-to-rejection conversion is partial. The recovery code
applies the unguarded type assertion `r.(string)` to the recovered value,
so for every non-string panic payload the conversion itself faults (the
`none` outcome: the recovery goroutine panics again and no rejection of
the promise ever happens), while under the precondition that the payload
is a string the failure branch is unreachable and the conversion succeeds
with the corresponding `reject` call. -/
theorem C8_panic_conversion_string_only (p : Promise) (v : Val) :
    ((∀ s, v ≠ Val.vstr s) → handlePanic p (some v) = none) ∧
    (∀ s, v = Val.vstr s → handlePanic p (some v) = some (reject p (some s))) := by
  constructor
  · intro hns
    cases v <;> first | rfl | exact absurd rfl (hns _)
  · rintro s rfl
    rfl

/-- Witness for C8: a non-string payload faults the conversion; the string
payload `boom` converts to a rejection. -/
theorem C8_witness :
    handlePanic newPromise (some (Val.vint 0)) = none ∧
    handlePanic newPromise (some (Val.vstr msgBoom)) =
      some (reject newPromise (some msgBoom)) :=
  ⟨(C8_panic_conversion_string_only newPromise (Val.vint 0)).1 (fun s => by simp),
   (C8_panic_conversion_string_only newPromise (Val.vstr msgBoom)).2 msgBoom rfl⟩

/-- C9 counterexample: the claim says `Await` blocks indefinitely for
*every* promise whose executor never settles, but a freshly constructed
promise with no registered handler has its WaitGroup counter already at
zero, so `wg.Wait()`'s return condition holds immediately and `Await`
returns at once even though the promise is still pending. -/
theorem C9_counterexample :
    newPromise.state = PState.pending ∧ awaitUnblocked newPromise = true :=
  ⟨rfl, rfl⟩

/-- C9 (amended): `Await` blocks until the completion signal reaches zero,
with no timeout; for every promise whose executor never calls resolve or
reject (and never panics) *and on which at least one handler was
registered while pending*, `Await` blocks indefinitely: every
registration-only history keeps the promise pending with the counter equal
to the number of registrations, so the counter stays positive under any
further registration-only activity. -/
theorem C9_await_blocks_when_handlers_registered (ops more : List RegOp)
    (hne : ops ≠ []) :
    (runRegs newPromise ops).state = PState.pending ∧
    awaitUnblocked (runRegs newPromise ops) = false ∧
    awaitUnblocked (runRegs newPromise (ops ++ more)) = false := by
  obtain ⟨h1, h2⟩ := runRegs_pending ops newPromise rfl
  obtain ⟨h1', h2'⟩ := runRegs_pending (ops ++ more) newPromise rfl
  have hlen : ops.length ≠ 0 := fun h => hne (List.length_eq_zero.mp h)
  refine ⟨h1, ?_, ?_⟩
  · rw [awaitUnblocked, h2]
    simp only [newPromise, beq_eq_false_iff_ne, ne_eq]
    intro hcon
    simp at hcon
    exact hne hcon
  · rw [awaitUnblocked, h2']
    simp only [newPromise, beq_eq_false_iff_ne, ne_eq]
    intro hcon
    simp at hcon
    omega

/-- Witness for the amended C9: one registered fulfillment handler keeps
`Await` blocked. -/
theorem C9_witness :
    awaitUnblocked (runRegs newPromise [RegOp.rthen idVal]) = false :=
  (C9_await_blocks_when_handlers_registered [RegOp.rthen idVal] []
    (by simp)).2.1

/-- No value is the promise-wrapping of itself. -/
theorem vpromF_ne_self (w : Val) : Val.vpromF w ≠ w := by
  intro h
  have hs := congrArg sizeOf h
  simp [Val.vpromF.sizeOf_spec] at hs

/-- C10: no flattening after settlement. `Then` on an already-fulfilled
promise stores the handler's return value as the result even when that
value is a promise object: the stored result is the promise object itself
(which is never equal to the nested fulfillment value), and a subsequent
`Then` handler is invoked with that promise object rather than with the
nested promise's settled value. -/
theorem C10_no_flattening_after_settlement (p : Promise) (w : Val) (g : Val → Val)
    (hp : p.state = PState.fulfilled) :
    (Then p (fun _ => Val.vpromF w)).result = Val.vpromF w ∧
    (Then (Then p (fun _ => Val.vpromF w)) g).result = g (Val.vpromF w) ∧
    (Then p (fun _ => Val.vpromF w)).result ≠ w := by
  have h1 : Then p (fun _ => Val.vpromF w) = { p with result := Val.vpromF w } := by
    simp [Then, hp]
  refine ⟨by rw [h1], ?_, ?_⟩
  · rw [h1]
    simp [Then, hp]
  · rw [h1]
    exact vpromF_ne_self w

/-- Witness for C10: a fulfilled promise, a handler returning a promise
that fulfills with `vint 228`, and an identity continuation. -/
theorem C10_witness :
    (Then (resolve newPromise (Val.vint 1)).1
        (fun _ => Val.vpromF (Val.vint 228))).result = Val.vpromF (Val.vint 228) ∧
    (Then (Then (resolve newPromise (Val.vint 1)).1
        (fun _ => Val.vpromF (Val.vint 228))) idVal).result =
      idVal (Val.vpromF (Val.vint 228)) :=
  ⟨(C10_no_flattening_after_settlement (resolve newPromise (Val.vint 1)).1
      (Val.vint 228) idVal rfl).1,
   (C10_no_flattening_after_settlement (resolve newPromise (Val.vint 1)).1
      (Val.vint 228) idVal rfl).2.1⟩

end PromiseSpec
